import Mathlib

/-!
Verification of the µESLint Nova extension core (config resolution, binary
cache, lint invocation, result sequencing and issue reconciliation) against
its natural-language specification. The JavaScript source is embedded
shallowly: pure logic becomes Lean functions, mutable state is passed
explicitly, subprocess and filesystem effects are supplied as inputs
(outcome records and lookup functions), and thrown errors become Except or
explicit result constructors.
-/

set_option linter.unusedVariables false

/-- Issue severity, mirroring the two Nova IssueSeverity values the code uses. -/
inductive Severity where
  | error
  | warning
deriving DecidableEq, Repr

/-- A Nova Issue as populated by ESLint.lint in core/eslint.js: source tag,
message text, nullable rule code, positions and severity. -/
structure Issue where
  source : String
  message : String
  code : Option String
  line : Nat
  column : Nat
  endLine : Nat
  endColumn : Nat
  severity : Severity
deriving DecidableEq, Repr

/-- The structural issue comparison used by updateIssues / changedIssues in
core/issues.js: equality over message, code, line, column, endLine, endColumn
and severity — the source field is ignored. -/
def eqIssue (knownIssue issue : Issue) : Bool :=
  decide (knownIssue.message = issue.message ∧
    knownIssue.code = issue.code ∧
    knownIssue.line = issue.line ∧
    knownIssue.column = issue.column ∧
    knownIssue.endLine = issue.endLine ∧
    knownIssue.endColumn = issue.endColumn ∧
    knownIssue.severity = issue.severity)

/-- changedIssues from core/issues.js: true when the incoming issue set
differs from the known one — length mismatch, or some incoming issue without
a structural match among the known ones. -/
def changedIssues (known incoming : List Issue) : Bool :=
  if known.length ≠ incoming.length then true
  else incoming.any fun issue => ! known.any fun knownIssue => eqIssue knownIssue issue

/-- JS regular-expression word character class: [A-Za-z0-9_]. -/
def isWordChar (c : Char) : Bool := c.isAlphanum || c = '_'

/-- Truthiness of message.match applied to the anchored pattern
“File ignored” followed by a word boundary, as in filterIssues. -/
def fileIgnoredTest (msg : String) : Bool :=
  let cs := msg.toList
  decide (cs.take 12 = "File ignored".toList) &&
    (match cs.drop 12 with
     | [] => true
     | c :: _ => ! isWordChar c)

/-- Whether “javascript” occurs at the head of `cs` as a whole word
(case-insensitively), `prev` being the character just before `cs`. -/
def jsWordHere (prev : Option Char) (cs : List Char) : Bool :=
  (match prev with | none => true | some c => ! isWordChar c) &&
    decide ((cs.take 10).map Char.toLower = "javascript".toList) &&
    (match cs.drop 10 with
     | [] => true
     | c :: _ => ! isWordChar c)

/-- Scan for a whole-word, case-insensitive occurrence of “javascript”. -/
def jsWordScan (prev : Option Char) : List Char → Bool
  | [] => false
  | c :: rest => jsWordHere prev (c :: rest) || jsWordScan (some c) rest

/-- Truthiness of document.syntax.match against the case-insensitive
word-bounded “javascript” pattern used by filterIssues. -/
def jsSyntaxTest (s : String) : Bool := jsWordScan none s.toList

/-- filterIssues from core/issues.js: when the report holds exactly one
issue, suppress “File ignored” warnings and code-less fatal errors on
documents whose syntax is not JavaScript; otherwise pass issues through. -/
def filterIssues (issues : List Issue) (docLang : String) : List Issue :=
  match issues with
  | [issue] =>
      if issue.severity = .warning ∧ fileIgnoredTest issue.message then []
      else if issue.severity = .error ∧ issue.code = none ∧ ¬ jsSyntaxTest docLang then []
      else [issue]
  | _ => issues

/-- The publish effect of one updateIssues call on the issue collection. -/
inductive Publish where
  | removed
  | replaced
  | untouched
deriving DecidableEq, Repr

/-- updateIssues from core/issues.js, restricted to one document URI.
`known` is the collection state for that URI (`none` when collection.has(uri)
is false, in which case collection.get(uri) yields the empty list). Returns
the publish action, the new collection state for the URI, and the issue
count the function reports. -/
def updateIssues (known : Option (List Issue)) (issues : Option (List Issue))
    (docClosed : Bool) : Publish × Option (List Issue) × Nat :=
  let removeBranch : Publish × Option (List Issue) × Nat :=
    if known.isSome then (.removed, none, 0) else (.untouched, none, 0)
  match issues with
  | none => removeBranch
  | some incoming =>
    if incoming.length = 0 ∨ docClosed then removeBranch
    else
      let knownIssues := known.getD []
      if knownIssues.length ≠ incoming.length then (.replaced, some incoming, incoming.length)
      else
        let hasChanges := incoming.any fun issue =>
          ! knownIssues.any fun knownIssue => eqIssue knownIssue issue
        if hasChanges then (.replaced, some incoming, incoming.length)
        else (.untouched, known, 0)

/-- The per-URI sequence counter of maybeLint (the `queue` object). -/
structure QueueData where
  lastStarted : Nat
  lastEnded : Nat
deriving DecidableEq, Repr

/-- Lazy initialisation on first use: queue[uri] = \x7b lastStarted: 1, lastEnded: 0 \x7d. -/
def queueInit : QueueData := { lastStarted := 1, lastEnded := 0 }

/-- Dispatch of one lint run: index = queue[uri].lastStarted++ (post-increment). -/
def queueDispatch (q : QueueData) : Nat × QueueData :=
  (q.lastStarted, { q with lastStarted := q.lastStarted + 1 })

/-- Completion of the run holding ticket `index`: the result is applied only
when queue[uri].lastEnded < index, and then lastEnded is set to index. -/
def queueComplete (q : QueueData) (index : Nat) : Bool × QueueData :=
  if q.lastEnded < index then (true, { q with lastEnded := index }) else (false, q)

/-- throttled from the main extension script: true when `since` is non-null
and at most one minute (60000 ms) has elapsed between it and `now`. -/
def throttled (since : Option Int) (now : Int) : Bool :=
  match since with
  | none => false
  | some s => decide (now - s ≤ 60000)

/-- An Updatable from core/updatable.js: a stored value with the UNIX
timestamp of its last update and a pending-update counter. -/
structure Updatable (α : Type) where
  value : Option α
  time : Option Int
  updates : Nat
deriving DecidableEq, Repr

/-- The no-argument Updatable constructor: null value, null timestamp. -/
def Updatable.empty {α : Type} : Updatable α :=
  { value := none, time := none, updates := 0 }

/-- The `updating` getter: whether an update is pending. -/
def Updatable.updating {α : Type} (u : Updatable α) : Bool := u.updates > 0

/-- The part of Updatable.update before the awaited value settles:
this._updates += 1. -/
def updateBegin {α : Type} (u : Updatable α) : Updatable α :=
  { u with updates := u.updates + 1 }

/-- The part of Updatable.update after the awaited value settles. On
fulfilment the value is stored and the timestamp set to now; on rejection
the error propagates, value and timestamp untouched. Either way the finally
block decrements the pending-update counter (guarded against underflow,
which Nat subtraction mirrors). -/
def updateSettle {α ε : Type} (u : Updatable α) (outcome : Except ε (Option α))
    (now : Int) : Updatable α × Option ε :=
  match outcome with
  | .ok v => ({ value := v, time := some now, updates := u.updates - 1 }, none)
  | .error e => ({ u with updates := u.updates - 1 }, some e)

/-- A whole Updatable.update call at an already-settled awaited outcome. -/
def Updatable.update {α ε : Type} (u : Updatable α) (outcome : Except ε (Option α))
    (now : Int) : Updatable α × Option ε :=
  updateSettle (updateBegin u) outcome now

/-- The linter-acquisition phase of maybeLint (main extension script):
lazily create the cache entry, resolve via getLinter when the entry has no
value and is not throttled, bail out when no instance results, and otherwise
kick off the background refresh when not updating and not throttled.
`now1`/`now3` are the clock readings of the two throttled() calls,
`now2`/`now4` those of the corresponding update completions. `mainLookup`
and `bgLookup` are the settled outcomes of the getLinter subprocess calls;
the returned Nat counts how many such lookups the phase actually started. -/
def linterPhase {α ε : Type} (entry0 : Option (Updatable α)) (now1 now2 now3 now4 : Int)
    (mainLookup bgLookup : Except ε (Option α)) :
    Updatable α × Option α × Nat :=
  let e0 := entry0.getD Updatable.empty
  let step1 : Updatable α × Nat :=
    if e0.value.isNone ∧ ¬ throttled e0.time now1 then
      ((Updatable.update e0 mainLookup now2).1, 1)
    else (e0, 0)
  let e1 := step1.1
  match e1.value with
  | none => (e1, none, step1.2)
  | some eslint =>
      if ¬ e1.updating ∧ ¬ throttled e1.time now3 then
        ((Updatable.update e1 bgLookup now4).1, some eslint, step1.2 + 1)
      else (e1, some eslint, step1.2)

/-- A directory path, abstracted as its list of components from the root;
nova.path.dirname becomes List.dropLast and the startsWith home-boundary
check becomes component-wise List.isPrefixOf. -/
abbrev DirPath := List String

/-- The filesystem facade ESLint._getConfig consults: nova.fs.stat().isFile(),
nova.fs.listdir, and requireJSON of a package.json path. `pkg p` is none when
requireJSON returns null (unreadable or empty file) and otherwise gives the
truthiness of each section key of the parsed contents. -/
structure FSys where
  isFile : DirPath → Bool
  listdir : DirPath → List String
  pkg : DirPath → Option (String → Bool)

/-- Outcome of one ESLint._getConfig call. `crashed` models the TypeError
thrown when requireJSON returns null and the section access dereferences it;
`outOfFuel` models a walk that never reaches the home-directory stop. -/
inductive WalkResult where
  | found (p : DirPath)
  | notFound
  | crashed
  | outOfFuel
deriving DecidableEq, Repr

/-- Action taken in one directory of the _getConfig walk. -/
inductive DirCheck where
  | ret (r : WalkResult)
  | cont
deriving DecidableEq, Repr

/-- One loop body of ESLint._getConfig: find the first candidate name listed
in `dir`; a non-manifest match returns its joined path at once; a
package.json match returns only when the designated section is truthy, and
otherwise the walk continues upward. -/
def matchInDir (fs : FSys) (names : List String) (sec : Option String)
    (dir : DirPath) : DirCheck :=
  match names.find? (fun name => (fs.listdir dir).contains name) with
  | none => .cont
  | some name =>
    if name ≠ "package.json" then .ret (.found (dir ++ [name]))
    else
      match sec with
      | none => .cont
      | some s =>
        match fs.pkg (dir ++ [name]) with
        | none => .ret .crashed
        | some parsed =>
          if parsed s then .ret (.found (dir ++ [name])) else .cont

/-- The do-while walk of ESLint._getConfig, fuelled: visit `dir`, ascend to
its parent, and stop (without listing further) once the parent equals the
home directory. Also returns the trace of directories listed. -/
def walkConfig (fs : FSys) (home : DirPath) (names : List String)
    (sec : Option String) : Nat → DirPath → WalkResult × List DirPath
  | 0, _ => (.outOfFuel, [])
  | fuel + 1, dir =>
    match matchInDir fs names sec dir with
    | .ret r => (r, [dir])
    | .cont =>
      let d := dir.dropLast
      if d = home then (.notFound, [dir])
      else
        let next := walkConfig fs home names sec fuel d
        (next.1, dir :: next.2)

/-- The directory ESLint._getConfig starts from: the containing directory
when the normalized input path names a file, else the path itself. -/
def startDir (fs : FSys) (forPath : DirPath) : DirPath :=
  if fs.isFile forPath then forPath.dropLast else forPath

/-- The character rendering of a normalized absolute component path, each
component preceded by the separator: ["home", "u"] renders as /home/u. -/
def renderPath (p : DirPath) : List Char :=
  p.flatMap fun comp => '/' :: comp.toList

/-- The dir.startsWith(home) guard of ESLint._getConfig: a raw string
prefix test on the rendered paths, not a directory-ancestry test — so
/home/uu passes the check for home /home/u. -/
def startsWithPath (dir home : DirPath) : Bool :=
  (renderPath home).isPrefixOf (renderPath dir)

/-- ESLint._getConfig from core/eslint.js: append package.json to the
candidate names when a section key is given, reject start directories
failing the string home-prefix check before any listing, then walk upward. -/
def getConfig (fs : FSys) (home : DirPath) (configFileNames : List String)
    (sec : Option String) (forPath : DirPath) : WalkResult × List DirPath :=
  let names := configFileNames ++ (if sec.isSome then ["package.json"] else [])
  let dir := startDir fs forPath
  if ¬ startsWithPath dir home then (.notFound, [])
  else walkConfig fs home names sec (dir.length + 1) dir

/-- The ordered dedicated config file names of ESLint.config. -/
def eslintrcNames : List String :=
  [".eslintrc.js", ".eslintrc.cjs", ".eslintrc.yaml", ".eslintrc.yml",
   ".eslintrc.json", ".eslintrc"]

/-- The full ordered candidate list ESLint.config checks per directory. -/
def eslintConfigNames : List String := eslintrcNames ++ ["package.json"]

/-- ESLint.config: dedicated config files in precedence order, with the
package.json eslintConfig section checked last. -/
def eslintConfigLookup (fs : FSys) (home : DirPath) (forPath : DirPath) :
    WalkResult × List DirPath :=
  getConfig fs home eslintrcNames (some "eslintConfig") forPath

/-- ESLint.ignore: the .eslintignore file, with the package.json
eslintIgnore section checked last. -/
def eslintIgnoreLookup (fs : FSys) (home : DirPath) (forPath : DirPath) :
    WalkResult × List DirPath :=
  getConfig fs home [".eslintignore"] (some "eslintIgnore") forPath

/-- The outcome record of one subprocess invocation (runAsync). -/
structure Run where
  code : Int
  stdout : String
  stderr : String
deriving DecidableEq, Repr

/-- The characters before the first newline. -/
def firstLineChars : List Char → List Char
  | [] => []
  | c :: rest => if c = '\n' then [] else c :: firstLineChars rest

/-- stdout.split with the newline separator, first element: everything up
to the first newline (or the whole string when it has none). -/
def firstLine (s : String) : String := String.mk (firstLineChars s.toList)

/-- The filesystem state the binary locator consults: existence (F_OK) and
executable-bit (X_OK) checks via nova.fs.access. -/
structure BinFS where
  fExists : String → Bool
  fExec : String → Bool

/-- Granting the executable bit to one path. -/
def BinFS.setExec (fs : BinFS) (p : String) : BinFS :=
  { fs with fExec := fun q => if q = p then true else fs.fExec q }

/-- makeExecutable from core/binaries.js: throw when any path is missing,
collect the non-executable ones, and chmod +x them in one subprocess call
(`chmodRun` is its outcome, consulted only when that call happens); a chmod
exit code above 0 throws its stderr. Returns the count of chmod-ed paths. -/
def makeExecutable (fs : BinFS) (paths : List String) (chmodRun : Run) :
    Except String (BinFS × Nat) :=
  if paths.any (fun p => ! fs.fExists p) then .error "locate"
  else
    let nonexec := paths.filter fun p => ! fs.fExec p
    if nonexec.isEmpty then .ok (fs, 0)
    else if chmodRun.code > 0 then .error chmodRun.stderr
    else .ok (nonexec.foldl BinFS.setExec fs, nonexec.length)

/-- Outcome of getLinter in the main extension script. `stuck` marks a trace
too short to settle the call (a subprocess outcome would still be awaited). -/
inductive GLOut where
  | linter (path : String)
  | noLinter
  | shellErr (code : Int) (stderr : String)
  | errOut (msg : String)
  | stuck
deriving DecidableEq, Repr

/-- getLinter from the main extension script, interpreted over the ordered
trace of subprocess outcomes it consumes (npm-which lookups and, inside the
self-heal branch, the chmod run of makeExecutable). Exit 0 with non-empty
stdout returns an instance when the first stdout line is executable; exit
codes above 1 raise ShellError when the lookup script itself is executable
and otherwise self-heal via makeExecutable and re-enter; everything else
resolves to null. -/
def getLinterRuns (bin : String) (fs : BinFS) : List Run → GLOut
  | [] => .stuck
  | r :: rest =>
    if r.code = 0 ∧ r.stdout ≠ "" then
      if fs.fExec (firstLine r.stdout) then .linter (firstLine r.stdout) else .noLinter
    else if r.code > 1 then
      if fs.fExec bin then .shellErr r.code r.stderr
      else
        match rest with
        | [] => .stuck
        | c :: rest2 =>
          match makeExecutable fs [bin] c with
          | .error m => .errOut m
          | .ok (fs2, _) => getLinterRuns bin fs2 rest2
    else .noLinter

/-- One ESLint report message as consumed by ESLint.lint: optional numeric
fields model fields that may be absent from the JSON record, `fatal` is the
truthiness of the fatal flag. -/
structure Message where
  message : String
  ruleId : Option String
  line : Option Nat
  column : Option Nat
  endLine : Option Nat
  endColumn : Option Nat
  severity : Nat
  fatal : Bool
deriving DecidableEq, Repr

/-- JS `x || d` on an optional numeric field: both a missing field and a
zero value are falsy and yield the default. -/
def falsyOr (v : Option Nat) (d : Nat) : Nat :=
  match v with
  | none => d
  | some 0 => d
  | some (n + 1) => n + 1

/-- The per-message Issue construction of ESLint.lint in core/eslint.js. -/
def normalizeMessage (srcName : String) (m : Message) : Issue :=
  let line := falsyOr m.line 0
  let column := falsyOr m.column 0
  { source := srcName
    message := m.message
    code := m.ruleId
    line := line
    column := column
    endLine := falsyOr m.endLine line
    endColumn := falsyOr m.endColumn column
    severity := if m.fatal ∨ m.severity = 2 then .error else .warning }

/-- The error ESLint.lint throws on lint-tool failure: name ProcessError,
message the tool's stderr. -/
structure ProcessError where
  message : String
deriving DecidableEq, Repr

/-- ESLint.lint from core/eslint.js at a settled lint-subprocess outcome:
exit codes above 1 throw ProcessError carrying stderr; otherwise the first
report entry's messages (`report`; none models blank stdout) are normalized
into Issues. -/
def lintRun (code : Int) (stderr : String) (report : Option (List Message))
    (srcName : String) : Except ProcessError (List Issue) :=
  if code > 1 then .error { message := stderr }
  else .ok ((report.getD []).map (normalizeMessage srcName))

/-!
Concrete fixtures used by witness and counterexample theorems.
-/

/-- A concrete warning issue. -/
def issueA : Issue :=
  { source := "µESLint", message := "unexpected console statement",
    code := some "no-console", line := 3, column := 5, endLine := 3,
    endColumn := 12, severity := .warning }

/-- A concrete error issue. -/
def issueB : Issue :=
  { source := "µESLint", message := "x is not defined",
    code := some "no-undef", line := 7, column := 1, endLine := 7,
    endColumn := 2, severity := .error }

/-- A filesystem with no config files anywhere and only directories. -/
def fsEmpty : FSys :=
  { isFile := fun _ => false
    listdir := fun _ => []
    pkg := fun _ => none }

/-- A filesystem exercising resolver precedence: under /home/u, directory a
holds both a dedicated config file and a manifest with the section, b holds
only the manifest with the section, c only the manifest without it. -/
def fsPrec : FSys :=
  { isFile := fun _ => false
    listdir := fun d =>
      if d = ["home", "u", "a"] then ["package.json", ".eslintrc.json"]
      else if d = ["home", "u", "b"] then ["package.json"]
      else if d = ["home", "u", "c"] then ["package.json"]
      else []
    pkg := fun p =>
      if p = ["home", "u", "a", "package.json"] then some (fun s => s = "eslintConfig")
      else if p = ["home", "u", "b", "package.json"] then some (fun s => s = "eslintConfig")
      else if p = ["home", "u", "c", "package.json"] then some (fun _ => false)
      else none }

/-- A binary filesystem where every path exists and only /usr/bin/eslint is
executable. -/
def binFSa : BinFS :=
  { fExists := fun _ => true
    fExec := fun p => p = "/usr/bin/eslint" }

/-- The npm-which lookup script path used in witnesses. -/
def whichBin : String := "/ext/npm-which.js"

/-- A fulfilled lookup run that finds /usr/bin/eslint. -/
def runFound : Run := { code := 0, stdout := "/usr/bin/eslint\n", stderr := "" }

/-- A lookup run that fails with a shell-level error. -/
def runShellFail : Run := { code := 127, stdout := "", stderr := "not executable" }

/-- A successful chmod run. -/
def runChmodOK : Run := { code := 0, stdout := "", stderr := "" }

/-- A concrete cache entry holding no value with a fresh timestamp. -/
def entryNullFresh : Updatable String :=
  { value := none, time := some 1000, updates := 0 }

/-- The report message of end-to-end scenario A: a no-undef error at 3:5
with severity 2 and no end positions. -/
def msgA : Message :=
  { message := "'x' is not defined", ruleId := some "no-undef",
    line := some 3, column := some 5, endLine := none, endColumn := none,
    severity := 2, fatal := false }

/-- A report message with missing or zero position fields. -/
def msgZero : Message :=
  { message := "zero", ruleId := none, line := none, column := some 0,
    endLine := none, endColumn := some 0, severity := 1, fatal := false }

/-!
Helper lemmas shared by the claim theorems.
-/

/-- An issue structurally matches itself under the source-ignoring comparison. -/
theorem eqIssue_self (i : Issue) : eqIssue i i = true := by
  simp [eqIssue]

/-- A strict component-wise lower path stays below after the longer path
drops its last component. -/
theorem isPrefixOf_dropLast {home dir : DirPath} (h : home.isPrefixOf dir = true)
    (hne : home ≠ dir) : home.isPrefixOf dir.dropLast = true := by
  rw [ List.isPrefixOf_iff_prefix] at h ⊢
  obtain ⟨t, rfl⟩ := h
  cases t with
  | nil => simp at hne
  | cons x xs =>
      rw [ List.dropLast_append_of_ne_nil home (by simp)]
      exact List.prefix_append home _

/-- A component-wise ancestor passes the rendered string-prefix check:
tree ancestry implies the weaker startsWith guard of the source. -/
theorem startsWithPath_of_isPrefixOf {home dir : DirPath}
    (h : home.isPrefixOf dir = true) : startsWithPath dir home = true := by
  rw [ List.isPrefixOf_iff_prefix] at h
  obtain ⟨t, rfl⟩ := h
  unfold startsWithPath renderPath
  rw [ List.isPrefixOf_iff_prefix, List.flatMap_append]
  exact List.prefix_append _ _

/-- Every directory the walk lists, starting strictly below home, lies
under home: the walk stops before listing home itself. -/
theorem walkConfig_trace_under_home (fs : FSys) (home : DirPath)
    (names : List String) (sec : Option String) :
    ∀ (fuel : Nat) (dir : DirPath), home.isPrefixOf dir = true → home ≠ dir →
      ∀ p ∈ (walkConfig fs home names sec fuel dir).2, home.isPrefixOf p = true := by
  intro fuel
  induction fuel with
  | zero => intro dir h hne p hp; simp [walkConfig] at hp
  | succ n ih =>
      intro dir h hne p hp
      unfold walkConfig at hp
      cases hm : matchInDir fs names sec dir with
      | ret r =>
          rw [hm] at hp
          simp at hp
          subst hp
          exact h
      | cont =>
          rw [hm] at hp
          by_cases hd : dir.dropLast = home
          · simp [hd] at hp
            subst hp
            exact h
          · simp [hd] at hp
            rcases hp with rfl | hp2
            · exact h
            · exact ih dir.dropLast (isPrefixOf_dropLast h hne)
                (fun e => hd e.symm) p hp2

/-- updateIssues replaces whenever the counts differ (open document,
non-empty incoming set). -/
theorem updateIssues_replaced (known : Option (List Issue)) (incoming : List Issue)
    (h1 : incoming ≠ []) (h2 : (known.getD []).length ≠ incoming.length) :
    updateIssues known (some incoming) false = (.replaced, some incoming, incoming.length) := by
  unfold updateIssues
  have h0 : ¬ incoming.length = 0 := by simpa [List.length_eq_zero] using h1
  simp [h0, h2]

/-- updateIssues leaves the collection untouched when counts match and every
incoming issue has a structural match among the known ones. -/
theorem updateIssues_untouched (known : Option (List Issue)) (incoming : List Issue)
    (h1 : incoming ≠ []) (h2 : (known.getD []).length = incoming.length)
    (h3 : ∀ i ∈ incoming, ∃ k ∈ known.getD [], eqIssue k i = true) :
    updateIssues known (some incoming) false = (.untouched, known, 0) := by
  unfold updateIssues
  have h0 : ¬ incoming.length = 0 := by simpa [List.length_eq_zero] using h1
  have hch : (incoming.any fun issue =>
      ! (known.getD []).any fun knownIssue => eqIssue knownIssue issue) = false := by
    rw [List.any_eq_false]
    intro i hi
    rcases h3 i hi with ⟨k, hk, he⟩
    have : ((known.getD []).any fun knownIssue => eqIssue knownIssue i) = true :=
      List.any_eq_true.mpr ⟨k, hk, he⟩
    simp [this]
  simp [h0, h2, hch]

/-- Reconciling a non-empty set against itself is a no-op. -/
theorem updateIssues_self (incoming : List Issue) (h : incoming ≠ []) :
    updateIssues (some incoming) (some incoming) false = (.untouched, some incoming, 0) :=
  updateIssues_untouched (some incoming) incoming h rfl
    (fun i hi => ⟨i, hi, eqIssue_self i⟩)

/-- A throttled cache entry with no stored value starts no lookup and comes
out of the linter-acquisition phase unchanged. -/
theorem linterPhase_skip {α ε : Type} (e : Updatable α) (now1 now2 now3 now4 : Int)
    (mainLookup bgLookup : Except ε (Option α)) (hval : e.value = none)
    (hthr : throttled e.time now1 = true) :
    linterPhase (some e) now1 now2 now3 now4 mainLookup bgLookup = (e, none, 0) := by
  unfold linterPhase
  simp [hval, hthr]

/-- A fresh entry (null value, null timestamp) always performs the lookup;
when that lookup definitively finds nothing, the entry records it with a
fresh timestamp and exactly one subprocess ran. -/
theorem linterPhase_fresh_nullresult {α ε : Type} (now1 now2 now3 now4 : Int)
    (bgLookup : Except ε (Option α)) :
    linterPhase none now1 now2 now3 now4 (Except.ok none) bgLookup =
      ({ value := none, time := some now2, updates := 0 }, none, 1) := by
  unfold linterPhase
  simp [Updatable.empty, Updatable.update, updateBegin, updateSettle, throttled]

/-- A throttled entry (value present or not) is never touched by the
linter-acquisition phase: neither the synchronous nor the background
refresh runs. -/
theorem linterPhase_throttled_noop {α ε : Type} (e : Updatable α)
    (now1 now2 now3 now4 : Int) (mainLookup bgLookup : Except ε (Option α))
    (h1 : throttled e.time now1 = true) (h3 : throttled e.time now3 = true) :
    linterPhase (some e) now1 now2 now3 now4 mainLookup bgLookup = (e, e.value, 0) := by
  cases hv : e.value with
  | none => rw [linterPhase_skip e now1 now2 now3 now4 mainLookup bgLookup hv h1]
  | some x =>
      unfold linterPhase
      simp [hv, h1, h3]

/-!
Claim theorems.
-/

/-- C1: the per-URI sequence counter starts as lastStarted 1 / lastEnded 0;
dispatch hands out index = lastStarted and post-increments it; a completion
is applied exactly when lastEnded < index, setting lastEnded to index; and
for start order 1,2,3 with completion order 3,1,2 only run 3 is applied —
the completions of runs 1 and 2 are discarded, in either residual order. -/
theorem queue_sequencer_ordering :
    (queueInit = { lastStarted := 1, lastEnded := 0 }) ∧
    (∀ q : QueueData, (queueDispatch q).1 = q.lastStarted ∧
      (queueDispatch q).2.lastStarted = q.lastStarted + 1 ∧
      (queueDispatch q).2.lastEnded = q.lastEnded) ∧
    (∀ (q : QueueData) (index : Nat),
      (queueComplete q index).1 = decide (q.lastEnded < index) ∧
      (queueComplete q index).2 =
        if q.lastEnded < index then { q with lastEnded := index } else q) ∧
    ((queueDispatch queueInit).1 = 1 ∧
      (queueDispatch (queueDispatch queueInit).2).1 = 2 ∧
      (queueDispatch (queueDispatch (queueDispatch queueInit).2).2).1 = 3) ∧
    (let q3 := (queueDispatch (queueDispatch (queueDispatch queueInit).2).2).2
     (queueComplete q3 3).1 = true ∧
     (let q4 := (queueComplete q3 3).2
      (queueComplete q4 1).1 = false ∧
      (queueComplete (queueComplete q4 1).2 2).1 = false ∧
      (queueComplete q4 2).1 = false ∧
      (queueComplete (queueComplete q4 2).2 1).1 = false)) := by
  refine ⟨rfl, ?_, ?_, by decide, by decide⟩
  · intro q
    simp [queueDispatch]
  · intro q index
    unfold queueComplete
    by_cases h : q.lastEnded < index <;> simp [h]

/-- C8: ESLint.lint throws ProcessError exactly on lint-tool exit codes
above 1, carrying the tool's stderr as the error message; exit codes 0 and
1 yield the normalized issue list instead. -/
theorem lint_process_error_iff :
    ∀ (code : Int) (stderr : String) (report : Option (List Message)) (srcName : String),
      (code > 1 → lintRun code stderr report srcName =
        Except.error { message := stderr }) ∧
      (code ≤ 1 → lintRun code stderr report srcName =
        Except.ok ((report.getD []).map (normalizeMessage srcName))) ∧
      (∀ e : ProcessError, lintRun code stderr report srcName = Except.error e →
        code > 1 ∧ e.message = stderr) := by
  intro code stderr report srcName
  refine ⟨?_, ?_, ?_⟩
  · intro h
    simp [lintRun, h]
  · intro h
    have h2 : ¬ code > 1 := by omega
    simp [lintRun, h2]
  · intro e he
    unfold lintRun at he
    by_cases h : code > 1
    · rw [if_pos h] at he
      refine ⟨h, ?_⟩
      cases he
      rfl
    · rw [if_neg h] at he
      cases he

/-- Witness for C8 at concrete exit codes: 2 throws ProcessError carrying
stderr, 1 (issues found) returns the parsed list. -/
theorem lint_process_error_iff_witness :
    lintRun 2 "crashed" (some []) "µESLint" = Except.error { message := "crashed" } ∧
    lintRun 1 "" (some []) "µESLint" = Except.ok [] :=
  ⟨(lint_process_error_iff 2 "crashed" (some []) "µESLint").1 (by decide),
   (lint_process_error_iff 1 "" (some []) "µESLint").2.1 (by decide)⟩

/-- C9: per-message normalization of ESLint.lint — severity is Error exactly
when the message is fatal or at tool severity 2 and Warning otherwise;
missing or zero line/column default to 0; missing or zero endLine/endColumn
default to the already-defaulted line/column; message text and ruleId pass
through unchanged into message and code. -/
theorem lint_message_normalization :
    (∀ (srcName : String) (m : Message),
      ((normalizeMessage srcName m).severity = Severity.error ↔
        (m.fatal = true ∨ m.severity = 2)) ∧
      ((normalizeMessage srcName m).severity = Severity.warning ↔
        ¬ (m.fatal = true ∨ m.severity = 2)) ∧
      (normalizeMessage srcName m).message = m.message ∧
      (normalizeMessage srcName m).code = m.ruleId ∧
      ((m.line = none ∨ m.line = some 0) → (normalizeMessage srcName m).line = 0) ∧
      ((m.column = none ∨ m.column = some 0) → (normalizeMessage srcName m).column = 0) ∧
      ((m.endLine = none ∨ m.endLine = some 0) →
        (normalizeMessage srcName m).endLine = (normalizeMessage srcName m).line) ∧
      ((m.endColumn = none ∨ m.endColumn = some 0) →
        (normalizeMessage srcName m).endColumn = (normalizeMessage srcName m).column)) ∧
    (∀ (code : Int) (stderr srcName : String) (msgs : List Message),
      code ≤ 1 →
        lintRun code stderr (some msgs) srcName =
          Except.ok (msgs.map (normalizeMessage srcName))) := by
  constructor
  · intro srcName m
    refine ⟨?_, ?_, rfl, rfl, ?_, ?_, ?_, ?_⟩
    · unfold normalizeMessage
      by_cases h : m.fatal = true ∨ m.severity = 2 <;> simp [h]
    · unfold normalizeMessage
      by_cases h : m.fatal = true ∨ m.severity = 2 <;> simp [h]
    · rintro (h | h) <;> simp [normalizeMessage, h, falsyOr]
    · rintro (h | h) <;> simp [normalizeMessage, h, falsyOr]
    · rintro (h | h) <;> simp [normalizeMessage, h, falsyOr]
    · rintro (h | h) <;> simp [normalizeMessage, h, falsyOr]
  · intro code stderr srcName msgs h
    have h2 : ¬ code > 1 := by omega
    simp [lintRun, h2]

/-- Witness for C9 on scenario A's message and on one with missing and zero
position fields. -/
theorem lint_message_normalization_witness :
    (normalizeMessage "µESLint" msgA).severity = Severity.error ∧
    (normalizeMessage "µESLint" msgZero).line = 0 ∧
    (normalizeMessage "µESLint" msgZero).column = 0 ∧
    (normalizeMessage "µESLint" msgZero).endLine = (normalizeMessage "µESLint" msgZero).line ∧
    (normalizeMessage "µESLint" msgZero).endColumn =
      (normalizeMessage "µESLint" msgZero).column ∧
    lintRun 0 "" (some [msgA]) "µESLint" = Except.ok [normalizeMessage "µESLint" msgA] :=
  ⟨((lint_message_normalization.1 "µESLint" msgA).1).mpr (by decide),
   (lint_message_normalization.1 "µESLint" msgZero).2.2.2.2.1 (Or.inl rfl),
   (lint_message_normalization.1 "µESLint" msgZero).2.2.2.2.2.1 (Or.inr rfl),
   (lint_message_normalization.1 "µESLint" msgZero).2.2.2.2.2.2.1 (Or.inl rfl),
   (lint_message_normalization.1 "µESLint" msgZero).2.2.2.2.2.2.2 (Or.inr rfl),
   lint_message_normalization.2 0 "" "µESLint" [msgA] (by decide)⟩

/-- C10: filterIssues is the identity on every issue list whose length is
not exactly 1; the single-issue suppressions never fire on other reports. -/
theorem filter_issues_identity_off_single :
    ∀ (issues : List Issue) (docLang : String),
      issues.length ≠ 1 → filterIssues issues docLang = issues := by
  intro issues docLang h
  match issues with
  | [] => rfl
  | [issue] => exact absurd rfl h
  | a :: b :: rest => rfl

/-- Witness for C10 at concrete inputs of lengths 0 and 2 (the second one
pairing a file-ignored-style warning with another issue). -/
theorem filter_issues_identity_off_single_witness :
    filterIssues [] "html" = [] ∧
    filterIssues [issueA, issueB] "html" = [issueA, issueB] :=
  ⟨filter_issues_identity_off_single [] "html" (by decide),
   filter_issues_identity_off_single [issueA, issueB] "html" (by decide)⟩

/-- C5: a request is throttled exactly when the timestamp is non-null and at
most 60000 ms old (a null timestamp is never throttled); a throttled entry
with a null linter value starts no lookup subprocess; and two resolution
requests for the same never-found binary within 60 seconds of one another
run the lookup subprocess exactly once (on the first request). -/
theorem linter_cache_throttle :
    (∀ t now : Int, throttled (some t) now = decide (now - t ≤ 60000)) ∧
    (∀ now : Int, throttled none now = false) ∧
    (∀ (α ε : Type) (e : Updatable α) (now1 now2 now3 now4 : Int)
        (mainLookup bgLookup : Except ε (Option α)),
      e.value = none → throttled e.time now1 = true →
        linterPhase (some e) now1 now2 now3 now4 mainLookup bgLookup = (e, none, 0)) ∧
    (∀ (α ε : Type) (now1 now2 now3 now4 now5 now6 now7 now8 : Int)
        (bg1 bg2 : Except ε (Option α)),
      now5 - now2 ≤ 60000 →
        (linterPhase (α := α) (ε := ε) none now1 now2 now3 now4 (Except.ok none) bg1).2.2
            = 1 ∧
        (linterPhase
            (some (linterPhase (α := α) (ε := ε) none now1 now2 now3 now4
              (Except.ok none) bg1).1)
            now5 now6 now7 now8 (Except.ok none) bg2).2.2 = 0) := by
  refine ⟨fun t now => rfl, fun now => rfl, ?_, ?_⟩
  · intro α ε e now1 now2 now3 now4 mainLookup bgLookup hval hthr
    exact linterPhase_skip e now1 now2 now3 now4 mainLookup bgLookup hval hthr
  · intro α ε now1 now2 now3 now4 now5 now6 now7 now8 bg1 bg2 hwin
    rw [linterPhase_fresh_nullresult now1 now2 now3 now4 bg1]
    refine ⟨rfl, ?_⟩
    rw [linterPhase_skip _ now5 now6 now7 now8 (Except.ok none) bg2 rfl
      (by simpa [throttled] using hwin)]

/-- Witness for C5: a fresh entry resolves at time 1000 and finds nothing; a
second request at time 31000 is inside the window and starts no lookup. -/
theorem linter_cache_throttle_witness :
    throttled (some 1000) 31000 = true ∧
    (linterPhase (α := String) (ε := Unit) none 999 1000 1001 1002
        (Except.ok none) (Except.ok none)).2.2 = 1 ∧
    (linterPhase (ε := Unit)
        (some (linterPhase (α := String) (ε := Unit) none 999 1000 1001 1002
          (Except.ok none) (Except.ok none)).1)
        31000 31001 31002 31003 (Except.ok none) (Except.ok none)).2.2 = 0 := by
  have h := linter_cache_throttle.2.2.2 String Unit 999 1000 1001 1002 31000 31001 31002
    31003 (Except.ok none) (Except.ok none) (by decide)
  exact ⟨by decide, h.1, h.2⟩

/-- C7: the updating flag is true only while a resolution is in flight — set
on update begin, back to false once the awaited outcome settles, fulfilled
or rejected; the timestamp is set exactly on fulfilled resolutions (found
instance or definitive null result), left untouched by a rejection, and
never changed during a throttled skip in which no resolution runs. -/
theorem updatable_updating_invariant :
    (∀ (α : Type) (u : Updatable α), (updateBegin u).updating = true) ∧
    (∀ (α ε : Type) (u : Updatable α) (outcome : Except ε (Option α)) (now : Int),
      u.updates = 0 → ((Updatable.update u outcome now).1).updating = false) ∧
    (∀ (α ε : Type) (u : Updatable α) (v : Option α) (now : Int),
      (Updatable.update u (Except.ok (ε := ε) v) now).1.time = some now ∧
      (Updatable.update u (Except.ok (ε := ε) v) now).1.value = v) ∧
    (∀ (α ε : Type) (u : Updatable α) (e : ε) (now : Int),
      (Updatable.update u (Except.error e) now).1.time = u.time ∧
      (Updatable.update u (Except.error e) now).1.value = u.value ∧
      (Updatable.update u (Except.error e) now).2 = some e) ∧
    (∀ (α ε : Type) (e : Updatable α) (now1 now2 now3 now4 : Int)
        (mainLookup bgLookup : Except ε (Option α)),
      throttled e.time now1 = true → throttled e.time now3 = true →
        linterPhase (some e) now1 now2 now3 now4 mainLookup bgLookup = (e, e.value, 0)) := by
  refine ⟨?_, ?_, ?_, ?_, ?_⟩
  · intro α u
    simp [updateBegin, Updatable.updating]
  · intro α ε u outcome now h0
    cases outcome <;> simp [Updatable.update, updateBegin, updateSettle, Updatable.updating, h0]
  · intro α ε u v now
    exact ⟨rfl, rfl⟩
  · intro α ε u e now
    exact ⟨rfl, rfl, rfl⟩
  · intro α ε e now1 now2 now3 now4 mainLookup bgLookup h1 h3
    exact linterPhase_throttled_noop e now1 now2 now3 now4 mainLookup bgLookup h1 h3

/-- Witness for C7 on a concrete entry: flag lifecycle across a fulfilled
and a rejected update, and an unchanged entry across a throttled skip. -/
theorem updatable_updating_invariant_witness :
    ((Updatable.update entryNullFresh (Except.ok (ε := Unit) (some "eslint")) 2000).1).updating
        = false ∧
    (Updatable.update entryNullFresh (Except.ok (ε := Unit) (some "eslint")) 2000).1.time
        = some 2000 ∧
    (Updatable.update entryNullFresh (Except.error ()) 2000).1.time = entryNullFresh.time ∧
    linterPhase (some entryNullFresh) 2000 2001 2002 2003
        (Except.ok (ε := Unit) none) (Except.ok none)
      = (entryNullFresh, entryNullFresh.value, 0) :=
  ⟨updatable_updating_invariant.2.1 String Unit entryNullFresh
      (Except.ok (some "eslint")) 2000 rfl,
   (updatable_updating_invariant.2.2.1 String Unit entryNullFresh (some "eslint") 2000).1,
   (updatable_updating_invariant.2.2.2.1 String Unit entryNullFresh () 2000).1,
   updatable_updating_invariant.2.2.2.2 String Unit entryNullFresh 2000 2001 2002 2003
      (Except.ok none) (Except.ok none) (by decide) (by decide)⟩

/-- One-step reductions of the getLinterRuns interpreter, mirroring the
branches of getLinter. -/
theorem getLinterRuns_success (bin : String) (fs : BinFS) (r : Run) (rest : List Run)
    (h0 : r.code = 0) (hs : r.stdout ≠ "") (hx : fs.fExec (firstLine r.stdout) = true) :
    getLinterRuns bin fs (r :: rest) = .linter (firstLine r.stdout) := by
  unfold getLinterRuns
  rw [if_pos ⟨h0, hs⟩, if_pos hx]

/-- Exit 0 with empty stdout resolves to null. -/
theorem getLinterRuns_emptyOut (bin : String) (fs : BinFS) (r : Run) (rest : List Run)
    (h0 : r.code = 0) (hs : r.stdout = "") :
    getLinterRuns bin fs (r :: rest) = .noLinter := by
  unfold getLinterRuns
  have hcond : ¬ (r.code = 0 ∧ r.stdout ≠ "") := fun h => h.2 hs
  have h1 : ¬ r.code > 1 := by omega
  rw [if_neg hcond, if_neg h1]

/-- Exit 0 whose first stdout line is not executable resolves to null. -/
theorem getLinterRuns_notExec (bin : String) (fs : BinFS) (r : Run) (rest : List Run)
    (h0 : r.code = 0) (hs : r.stdout ≠ "") (hx : fs.fExec (firstLine r.stdout) = false) :
    getLinterRuns bin fs (r :: rest) = .noLinter := by
  unfold getLinterRuns
  have hx2 : ¬ (fs.fExec (firstLine r.stdout) = true) := by simp [hx]
  rw [if_pos ⟨h0, hs⟩, if_neg hx2]

/-- Exit above 1 with an executable lookup script raises ShellError. -/
theorem getLinterRuns_shellError (bin : String) (fs : BinFS) (r : Run) (rest : List Run)
    (h1 : r.code > 1) (hb : fs.fExec bin = true) :
    getLinterRuns bin fs (r :: rest) = .shellErr r.code r.stderr := by
  unfold getLinterRuns
  have h0 : ¬ (r.code = 0 ∧ r.stdout ≠ "") := by
    rintro ⟨e, _⟩
    omega
  rw [if_neg h0, if_pos h1, if_pos hb]

/-- The self-heal of makeExecutable on a present, non-executable lookup
script with a clean chmod: the executable bit is granted. -/
theorem makeExecutable_heal (fs : BinFS) (bin : String) (c : Run)
    (hx : fs.fExists bin = true) (hb : fs.fExec bin = false) (hc : c.code = 0) :
    makeExecutable fs [bin] c = .ok (fs.setExec bin, 1) := by
  unfold makeExecutable
  simp [hx, hb, hc, List.filter_cons]

/-- After a failed lookup on a non-executable script, getLinter self-heals
and re-enters with the bit set. -/
theorem getLinterRuns_heal (bin : String) (fs : BinFS) (r c : Run) (rest : List Run)
    (h1 : r.code > 1) (hb : fs.fExec bin = false) (hx : fs.fExists bin = true)
    (hc : c.code = 0) :
    getLinterRuns bin fs (r :: c :: rest) = getLinterRuns bin (fs.setExec bin) rest := by
  have h0 : ¬ (r.code = 0 ∧ r.stdout ≠ "") := by
    rintro ⟨e, _⟩
    omega
  have hbne : ¬ (fs.fExec bin = true) := by simp [hb]
  simp only [getLinterRuns]
  rw [if_neg h0, if_pos h1, if_neg hbne, makeExecutable_heal fs bin c hx hb hc]

/-- C6: the binary locator returns an instance exactly when the lookup exits
0 with non-empty stdout whose first line is executable; exit 0 with empty
stdout or a non-executable first line yields null; exit codes above 1 raise
ShellError when the lookup script is executable, and otherwise trigger the
one-time self-heal (chmod of the lookup script) plus exactly one retry,
whose repeated failure propagates as ShellError. -/
theorem binary_locator_contract :
    (∀ (bin : String) (fs : BinFS) (r : Run) (rest : List Run),
      r.code = 0 → r.stdout ≠ "" → fs.fExec (firstLine r.stdout) = true →
        getLinterRuns bin fs (r :: rest) = .linter (firstLine r.stdout)) ∧
    (∀ (bin : String) (fs : BinFS) (r : Run) (rest : List Run),
      r.code = 0 → r.stdout = "" → getLinterRuns bin fs (r :: rest) = .noLinter) ∧
    (∀ (bin : String) (fs : BinFS) (r : Run) (rest : List Run),
      r.code = 0 → r.stdout ≠ "" → fs.fExec (firstLine r.stdout) = false →
        getLinterRuns bin fs (r :: rest) = .noLinter) ∧
    (∀ (bin : String) (fs : BinFS) (r : Run) (p : String),
      getLinterRuns bin fs [r] = .linter p →
        r.code = 0 ∧ r.stdout ≠ "" ∧ p = firstLine r.stdout ∧ fs.fExec p = true) ∧
    (∀ (bin : String) (fs : BinFS) (r : Run) (rest : List Run),
      r.code > 1 → fs.fExec bin = true →
        getLinterRuns bin fs (r :: rest) = .shellErr r.code r.stderr) ∧
    (∀ (bin : String) (fs : BinFS) (r c r2 : Run) (rest : List Run),
      r.code > 1 → fs.fExec bin = false → fs.fExists bin = true → c.code = 0 →
      r2.code > 1 →
        getLinterRuns bin fs (r :: c :: r2 :: rest) = .shellErr r2.code r2.stderr) := by
  refine ⟨getLinterRuns_success, getLinterRuns_emptyOut, getLinterRuns_notExec, ?_, 
    getLinterRuns_shellError, ?_⟩
  · intro bin fs r p h
    unfold getLinterRuns at h
    by_cases h0 : r.code = 0 ∧ r.stdout ≠ ""
    · rw [if_pos h0] at h
      by_cases hx : fs.fExec (firstLine r.stdout) = true
      · rw [if_pos hx] at h
        cases h
        exact ⟨h0.1, h0.2, rfl, hx⟩
      · rw [if_neg hx] at h
        cases h
    · rw [if_neg h0] at h
      by_cases h1 : r.code > 1
      · rw [if_pos h1] at h
        by_cases hb : fs.fExec bin = true
        · rw [if_pos hb] at h
          cases h
        · rw [if_neg hb] at h
          cases h
      · rw [if_neg h1] at h
        cases h
  · intro bin fs r c r2 rest h1 hb hx hc h2
    rw [getLinterRuns_heal bin fs r c (r2 :: rest) h1 hb hx hc]
    exact getLinterRuns_shellError bin (fs.setExec bin) r2 rest h2 (by simp [BinFS.setExec])

/-- Witness for C6: a found binary, an empty-stdout miss, a direct
ShellError on an executable lookup script, and the heal-then-retry path
ending in ShellError. -/
theorem binary_locator_contract_witness :
    getLinterRuns whichBin binFSa [runFound] = .linter "/usr/bin/eslint" ∧
    getLinterRuns whichBin binFSa [{ code := 0, stdout := "", stderr := "" }] = .noLinter ∧
    getLinterRuns whichBin (binFSa.setExec whichBin) [runShellFail]
      = .shellErr 127 "not executable" ∧
    getLinterRuns whichBin binFSa [runShellFail, runChmodOK, runShellFail]
      = .shellErr 127 "not executable" :=
  ⟨binary_locator_contract.1 whichBin binFSa runFound [] (by decide) (by decide) (by decide),
   binary_locator_contract.2.1 whichBin binFSa { code := 0, stdout := "", stderr := "" } []
     (by decide) rfl,
   binary_locator_contract.2.2.2.2.1 whichBin (binFSa.setExec whichBin) runShellFail []
     (by decide) (by decide),
   binary_locator_contract.2.2.2.2.2 whichBin binFSa runShellFail runChmodOK runShellFail []
     (by decide) (by decide) (by decide) (by decide) (by decide)⟩

/-- C4: the reconciler republishes only on change — a count mismatch always
replaces; matching counts with a structural match (ignoring source, in any
order) for every incoming issue leave the collection untouched; hence any
permutation of the published set, and a second reconcile of the same set,
publish nothing. -/
theorem issue_reconciler_change_detection :
    (∀ (known : Option (List Issue)) (incoming : List Issue),
      incoming ≠ [] → (known.getD []).length ≠ incoming.length →
        updateIssues known (some incoming) false =
          (.replaced, some incoming, incoming.length)) ∧
    (∀ (known : Option (List Issue)) (incoming : List Issue),
      incoming ≠ [] → (known.getD []).length = incoming.length →
      (∀ i ∈ incoming, ∃ k ∈ known.getD [], eqIssue k i = true) →
        updateIssues known (some incoming) false = (.untouched, known, 0)) ∧
    (∀ (published incoming : List Issue),
      incoming ≠ [] → incoming.Perm published →
        updateIssues (some published) (some incoming) false =
          (.untouched, some published, 0)) ∧
    (∀ (known : Option (List Issue)) (incoming : List Issue),
      incoming ≠ [] →
        updateIssues (updateIssues known (some incoming) false).2.1 (some incoming) false
          = (.untouched, (updateIssues known (some incoming) false).2.1, 0)) := by
  refine ⟨updateIssues_replaced, updateIssues_untouched, ?_, ?_⟩
  · intro published incoming h1 hp
    refine updateIssues_untouched (some published) incoming h1 hp.length_eq.symm ?_
    intro i hi
    exact ⟨i, hp.mem_iff.mp hi, eqIssue_self i⟩
  · intro known incoming h1
    by_cases hlen : (known.getD []).length = incoming.length
    · by_cases hch : (incoming.any fun issue =>
          ! (known.getD []).any fun knownIssue => eqIssue knownIssue issue) = true
      · have h1st : updateIssues known (some incoming) false =
            (.replaced, some incoming, incoming.length) := by
          unfold updateIssues
          have h0 : ¬ incoming.length = 0 := by simpa [List.length_eq_zero] using h1
          simp [h0, hlen, hch]
        rw [h1st]
        exact updateIssues_self incoming h1
      · have hfalse : (incoming.any fun issue =>
            ! (known.getD []).any fun knownIssue => eqIssue knownIssue issue) = false := by
          simpa using hch
        have hmatch : ∀ i ∈ incoming, ∃ k ∈ known.getD [], eqIssue k i = true := by
          intro i hi
          have h2 := List.any_eq_false.mp hfalse i hi
          simp only [Bool.not_eq_true] at h2
          rcases List.any_eq_true.mp (by simpa using h2) with ⟨k, hk, he⟩
          exact ⟨k, hk, he⟩
        have h1st := updateIssues_untouched known incoming h1 hlen hmatch
        rw [h1st]
        exact h1st
    · have h1st := updateIssues_replaced known incoming h1 hlen
      rw [h1st]
      exact updateIssues_self incoming h1

/-- Witness for C4: a count change replaces; a permutation of the published
pair is left untouched; re-reconciling the same set publishes nothing. -/
theorem issue_reconciler_change_detection_witness :
    updateIssues (some [issueA]) (some [issueA, issueB]) false
      = (.replaced, some [issueA, issueB], 2) ∧
    updateIssues (some [issueA, issueB]) (some [issueB, issueA]) false
      = (.untouched, some [issueA, issueB], 0) ∧
    updateIssues (updateIssues (some [issueA]) (some [issueB]) false).2.1
        (some [issueB]) false
      = (.untouched, (updateIssues (some [issueA]) (some [issueB]) false).2.1, 0) :=
  ⟨issue_reconciler_change_detection.1 (some [issueA]) [issueA, issueB]
      (by decide) (by decide),
   issue_reconciler_change_detection.2.2.1 [issueA, issueB] [issueB, issueA]
      (by decide) (by decide),
   issue_reconciler_change_detection.2.2.2 (some [issueA]) [issueB] (by decide)⟩

/-- C2: ESLint.config checks the ordered candidate list with package.json
last after the six dedicated names; the first candidate present in a
directory wins; a dedicated-name match returns its path at once; a manifest
match returns only when the designated section is truthy (eslintConfig for
config, eslintIgnore for ignore) and otherwise the walk continues with the
parent directory rather than stopping. -/
theorem config_resolver_precedence :
    (eslintConfigNames = [".eslintrc.js", ".eslintrc.cjs", ".eslintrc.yaml",
        ".eslintrc.yml", ".eslintrc.json", ".eslintrc", "package.json"]) ∧
    (∀ (fs : FSys) (home forPath : DirPath),
      eslintConfigLookup fs home forPath =
        getConfig fs home eslintrcNames (some "eslintConfig") forPath ∧
      eslintIgnoreLookup fs home forPath =
        getConfig fs home [".eslintignore"] (some "eslintIgnore") forPath) ∧
    (∀ (fs : FSys) (names : List String) (sec : Option String) (dir : DirPath)
        (name : String),
      names.find? (fun n => (fs.listdir dir).contains n) = some name →
      name ≠ "package.json" →
        matchInDir fs names sec dir = .ret (.found (dir ++ [name]))) ∧
    (∀ (fs : FSys) (names : List String) (s : String) (dir : DirPath)
        (parsed : String → Bool),
      names.find? (fun n => (fs.listdir dir).contains n) = some "package.json" →
      fs.pkg (dir ++ ["package.json"]) = some parsed →
        (parsed s = true →
          matchInDir fs names (some s) dir = .ret (.found (dir ++ ["package.json"]))) ∧
        (parsed s = false → matchInDir fs names (some s) dir = .cont)) ∧
    (∀ (fs : FSys) (home : DirPath) (names : List String) (sec : Option String)
        (fuel : Nat) (dir : DirPath),
      matchInDir fs names sec dir = .cont → dir.dropLast ≠ home →
        walkConfig fs home names sec (fuel + 1) dir =
          ((walkConfig fs home names sec fuel dir.dropLast).1,
            dir :: (walkConfig fs home names sec fuel dir.dropLast).2)) := by
  refine ⟨rfl, fun fs home forPath => ⟨rfl, rfl⟩, ?_, ?_, ?_⟩
  · intro fs names sec dir name hfind hne
    unfold matchInDir
    rw [hfind]
    simp [hne]
  · intro fs names s dir parsed hfind hpkg
    constructor
    · intro htrue
      unfold matchInDir
      rw [hfind]
      simp [hpkg, htrue]
    · intro hfalse
      unfold matchInDir
      rw [hfind]
      simp [hpkg, hfalse]
  · intro fs home names sec fuel dir hm hd
    conv_lhs => unfold walkConfig
    rw [hm]
    simp [hd]

/-- Witness for C2 on fsPrec: the dedicated config file wins over a manifest
with section; the manifest with section wins alone; the manifest without
section is skipped and the walk steps to the parent directory. -/
theorem config_resolver_precedence_witness :
    matchInDir fsPrec eslintConfigNames (some "eslintConfig") ["home", "u", "a"]
      = .ret (.found ["home", "u", "a", ".eslintrc.json"]) ∧
    matchInDir fsPrec eslintConfigNames (some "eslintConfig") ["home", "u", "b"]
      = .ret (.found ["home", "u", "b", "package.json"]) ∧
    matchInDir fsPrec eslintConfigNames (some "eslintConfig") ["home", "u", "c"] = .cont ∧
    walkConfig fsPrec ["home", "u"] eslintConfigNames (some "eslintConfig") 3
        ["home", "u", "c", "d"]
      = ((walkConfig fsPrec ["home", "u"] eslintConfigNames (some "eslintConfig") 2
            ["home", "u", "c"]).1,
         ["home", "u", "c", "d"] ::
          (walkConfig fsPrec ["home", "u"] eslintConfigNames (some "eslintConfig") 2
            ["home", "u", "c"]).2) :=
  ⟨config_resolver_precedence.2.2.1 fsPrec eslintConfigNames (some "eslintConfig")
      ["home", "u", "a"] ".eslintrc.json" (by decide) (by decide),
   (config_resolver_precedence.2.2.2.1 fsPrec eslintConfigNames "eslintConfig"
      ["home", "u", "b"] (fun s => s = "eslintConfig") (by decide) rfl).1 (by decide),
   (config_resolver_precedence.2.2.2.1 fsPrec eslintConfigNames "eslintConfig"
      ["home", "u", "c"] (fun _ => false) (by decide) rfl).2 rfl,
   config_resolver_precedence.2.2.2.2 fsPrec ["home", "u"] eslintConfigNames
      (some "eslintConfig") 2 ["home", "u", "c", "d"] (by decide) (by decide)⟩

/-- C3 (amended): a start directory failing the code's home-prefix check —
a raw string-prefix test on the rendered paths — makes config and ignore
resolution return null at once with no directory listed; a start directory
strictly below home in the directory tree keeps every directory the upward
walk lists inside the home tree. The string test is weaker than tree
ancestry: a sibling directory merely extending home's rendered string, and
home itself, pass the check and the walk then lists directories outside the
home tree (see the counterexample). -/
theorem config_resolution_home_boundary :
    (∀ (fs : FSys) (home forPath : DirPath),
      startsWithPath (startDir fs forPath) home = false →
        eslintConfigLookup fs home forPath = (.notFound, []) ∧
        eslintIgnoreLookup fs home forPath = (.notFound, [])) ∧
    (∀ (fs : FSys) (home : DirPath) (configFileNames : List String)
        (sec : Option String) (forPath : DirPath),
      home.isPrefixOf (startDir fs forPath) = true → home ≠ startDir fs forPath →
        ∀ p ∈ (getConfig fs home configFileNames sec forPath).2,
          home.isPrefixOf p = true) := by
  constructor
  · intro fs home forPath h
    have h2 : ¬ (startsWithPath (startDir fs forPath) home = true) := by simp [h]
    constructor
    · unfold eslintConfigLookup getConfig
      rw [if_pos h2]
    · unfold eslintIgnoreLookup getConfig
      rw [if_pos h2]
  · intro fs home configFileNames sec forPath h hne p hp
    have hsw := startsWithPath_of_isPrefixOf h
    unfold getConfig at hp
    rw [if_neg (by simp [hsw] :
      ¬ ¬ (startsWithPath (startDir fs forPath) home = true))] at hp
    exact walkConfig_trace_under_home fs home _ sec _ (startDir fs forPath) h hne p hp

/-- Witness for C3: a path outside home fails the string check and resolves
to null with an empty trace, and from /home/u/c/d (strictly below home
/home/u) every listed directory stays below home. -/
theorem config_resolution_home_boundary_witness :
    eslintConfigLookup fsEmpty ["home", "u"] ["opt", "x"] = (.notFound, []) ∧
    (eslintConfigLookup fsPrec ["home", "u"] ["home", "u", "c", "d"]).2.all
      (fun p => (["home", "u"] : DirPath).isPrefixOf p) = true := by
  constructor
  · exact (config_resolution_home_boundary.1 fsEmpty ["home", "u"] ["opt", "x"] (by decide)).1
  · rw [List.all_eq_true]
    intro p hp
    have h := config_resolution_home_boundary.2 fsPrec ["home", "u"] eslintrcNames
      (some "eslintConfig") ["home", "u", "c", "d"] (by decide) (by decide) p
    simpa using h (by simpa using hp)

/-- C3 counterexample, refuting both halves of the claim as stated. The
start directory /home/uu does not lie under home /home/u, yet it passes the
code's string startsWith check, so resolution lists /home/uu, /home and the
root instead of returning none untouched. And the start directory /home/u
— home itself, admitted by the check — has the walk list /home, above the
home boundary. -/
theorem config_resolution_home_boundary_cex :
    (["home", "u"] : DirPath).isPrefixOf ["home", "uu"] = false ∧
    startsWithPath (startDir fsEmpty ["home", "uu"]) ["home", "u"] = true ∧
    (eslintConfigLookup fsEmpty ["home", "u"] ["home", "uu"]).2
      = [["home", "uu"], ["home"], []] ∧
    startsWithPath (startDir fsEmpty ["home", "u"]) ["home", "u"] = true ∧
    (eslintConfigLookup fsEmpty ["home", "u"] ["home", "u"]).2.contains ["home"] = true ∧
    (["home", "u"] : DirPath).isPrefixOf ["home"] = false := by
  refine ⟨by decide, by decide, ?_, by decide, ?_, by decide⟩
  · have h : eslintConfigLookup fsEmpty ["home", "u"] ["home", "uu"]
        = (.outOfFuel, [["home", "uu"], ["home"], []]) := by decide
    rw [h]
  · have h : eslintConfigLookup fsEmpty ["home", "u"] ["home", "u"]
        = (.outOfFuel, [["home", "u"], ["home"], []]) := by decide
    rw [h]
    decide
